import Mathlib

/-!
Shallow embedding of the RSAOracle CTF writeup solver: the generic
Euclidean-domain element of `solution/ring_element.py` (derived subtraction,
division with remainder and extended gcd) and the oracle-backed solver of
`solution/solver.py` (the `RingElement` instantiation, the sampling phase,
the gcd phase and the validation step of `try_attack`).

Loops are modelled with explicit fuel.  Oracle replies and transport faults
are supplied by an environment `Env`; the session state `OState` carries the
`uses` counter and the log of issued queries.
-/

namespace RSAOracle

/-- Transport fault raised by the socket layer (Python `OSError`). -/
inductive OracleFault
  | osError
deriving DecidableEq, Repr

/-- Session state owned by `try_attack` (solver.py): the `uses` counter and
the log of oracle query values issued so far. -/
structure OState where
  uses : ℕ
  queries : List ℤ
deriving DecidableEq, Repr

variable {α σ : Type}

/-- Operation table of `IntegerEuclideanDomainElement` (ring_element.py):
`zero`, `__eq__`, `__add__`, `__mul__` (element and integer-scalar overloads)
and `__ge__`.  The comparison threads a state `σ` and may fault, matching the
oracle-backed instantiation; exact instantiations ignore the state. -/
structure EDOps (α : Type) (σ : Type) where
  zero : α
  beq : α → α → Bool
  add : α → α → α
  mulE : α → α → α
  mulS : α → ℤ → α
  ge : α → α → σ → σ × Except OracleFault Bool

/-- Derived `__sub__` (ring_element.py line 47): `self + (other * (-1))`. -/
def EDOps.sub (ops : EDOps α σ) (a b : α) : α := ops.add a (ops.mulS b (-1))

/-- Derived `__ne__` (ring_element.py line 36): `not self == other`. -/
def EDOps.ne (ops : EDOps α σ) (a b : α) : Bool := !(ops.beq a b)

/-- Derived `__le__` (ring_element.py line 54): `other >= self`. -/
def EDOps.le (ops : EDOps α σ) (a b : α) (s : σ) : σ × Except OracleFault Bool :=
  ops.ge b a s

/-- Exponential search of `__divmod__` (ring_element.py lines 58-62):
`for b in map(lambda exp: 2 ** exp, naturals()): if other * b >= self: break`.
Modelled from the spec: `solution/utils.py` is not under src/; its
`naturals()` generator is modelled, following the spec's "exponential search
for a power-of-two upper bound `b`", as yielding 0, 1, 2, ... so the
candidate bounds are `2^0, 2^1, 2^2, ...`.  `fuel` bounds the number of
probes; the exponent argument starts at 0. -/
def expSearch (ops : EDOps α σ) (self other : α) :
    ℕ → ℕ → σ → Option (σ × Except OracleFault ℕ)
  | _, 0, _ => none
  | exp, fuel + 1, s =>
    match ops.ge (ops.mulS other ((2 ^ exp : ℕ) : ℤ)) self s with
    | (s', Except.error f) => some (s', Except.error f)
    | (s', Except.ok true) => some (s', Except.ok (2 ^ exp))
    | (s', Except.ok false) => expSearch ops self other (exp + 1) fuel s'

/-- Binary search of `__divmod__` (ring_element.py lines 65-73):
`while b > a + 1`, narrow `[a, b]` by testing `self >= other * mid` at
`mid = (a + b) // 2`.  The loop needs at most `b - a` steps; `fuel` is
threaded structurally and `divmodFuel` supplies `b`, which always suffices. -/
def binSearch (ops : EDOps α σ) (self other : α) :
    ℕ → ℕ → ℕ → σ → Option (σ × Except OracleFault (ℕ × ℕ))
  | 0, a, b, s => if a + 1 < b then none else some (s, Except.ok (a, b))
  | fuel + 1, a, b, s =>
    if a + 1 < b then
      match ops.ge self (ops.mulS other (((a + b) / 2 : ℕ) : ℤ)) s with
      | (s', Except.error f) => some (s', Except.error f)
      | (s', Except.ok true) => binSearch ops self other fuel ((a + b) / 2) b s'
      | (s', Except.ok false) => binSearch ops self other fuel a ((a + b) / 2) s'
    else some (s, Except.ok (a, b))

/-- `__divmod__` (ring_element.py lines 57-78): exponential search for a
power-of-two upper bound, binary search for the boundary quotient, one final
comparison `self >= other * b` choosing the quotient, and the remainder
`self - other * quotient`.  `fuel` bounds the exponential search only. -/
def divmodFuel (ops : EDOps α σ) (fuel : ℕ) (self other : α) (s : σ) :
    Option (σ × Except OracleFault (ℤ × α)) :=
  match expSearch ops self other 0 fuel s with
  | none => none
  | some (s1, Except.error f) => some (s1, Except.error f)
  | some (s1, Except.ok b) =>
    match binSearch ops self other b 0 b s1 with
    | none => none
    | some (s2, Except.error f) => some (s2, Except.error f)
    | some (s2, Except.ok (a, b')) =>
      match ops.ge self (ops.mulS other (b' : ℤ)) s2 with
      | (s3, Except.error f) => some (s3, Except.error f)
      | (s3, Except.ok t) =>
        let q : ℤ := if t then (b' : ℤ) else (a : ℤ)
        some (s3, Except.ok (q, ops.sub self (ops.mulS other q)))

/-- The extended-Euclid loop of `gcd` (ring_element.py lines 80-112), with
the coefficient update
`alpha_a, beta_a = alpha_a - quotient * alpha_b, beta_a - quotient * beta_b`
followed by the swap, folded into the recursive call.  `dfuel` is the fuel
handed to each `divmod`; `fuel` bounds the number of loop iterations. -/
def gcdLoop (ops : EDOps α σ) (dfuel : ℕ) :
    ℕ → α → α → ℤ → ℤ → ℤ → ℤ → σ → Option (σ × Except OracleFault (α × ℤ × ℤ))
  | 0, a, b, aa, ba, _, _, s =>
    if EDOps.ne ops b ops.zero then none else some (s, Except.ok (a, aa, ba))
  | fuel + 1, a, b, aa, ba, ab, bb, s =>
    if EDOps.ne ops b ops.zero then
      match divmodFuel ops dfuel a b s with
      | none => none
      | some (s', Except.error f) => some (s', Except.error f)
      | some (s', Except.ok (q, r)) =>
        gcdLoop ops dfuel fuel b r ab bb (aa - q * ab) (ba - q * bb) s'
    else some (s, Except.ok (a, aa, ba))

/-- `gcd(self, other)` (ring_element.py): run the extended-Euclid loop from
`alpha_a, beta_a = 1, 0` and `alpha_b, beta_b = 0, 1`. -/
def gcdFuel (ops : EDOps α σ) (dfuel fuel : ℕ) (self other : α) (s : σ) :
    Option (σ × Except OracleFault (α × ℤ × ℤ)) :=
  gcdLoop ops dfuel fuel self other 1 0 0 1 s

/-- The plain-integer instantiation with the natural ordering: an exact,
non-noisy comparator, as in the spec's hand-built test domain. -/
def intOpsE : EDOps ℤ Unit where
  zero := 0
  beq a b := a == b
  add a b := a + b
  mulE a b := a * b
  mulS a z := a * z
  ge a b _ := ((), Except.ok (decide (b ≤ a)))

/-- One session's environment in `try_attack` (solver.py): the public
parameters received from the server banner (`n; e; encrypted_flag`), the
server's reply to the i-th oracle query (`Except.error` modelling a raised
`OSError` from the socket), and the stream of `random.randint(1, n)` draws. -/
structure Env where
  n : ℤ
  e : ℕ
  encrypted_flag : ℤ
  resp : ℕ → ℤ → Except OracleFault Bool
  rand : ℕ → ℤ

/-- `RingElement` (solver.py lines 46-75): a hidden multiple of the flag,
represented by its chosen `pre_image`. -/
structure RingElement where
  pre_image : ℤ
deriving DecidableEq, Repr

/-- `RingElement.zero()` (solver.py): `RingElement(0)`. -/
def zeroRE : RingElement := ⟨0⟩

/-- `RingElement.image` (solver.py lines 54-57):
`(encrypted_flag * pow(self.pre_image, e, n)) % n`, with Python's
three-argument `pow` and `%` on a positive modulus matching `Int.emod`. -/
def imageOf (env : Env) (a : RingElement) : ℤ :=
  (env.encrypted_flag * (a.pre_image ^ env.e % env.n)) % env.n

/-- `RingElement.__eq__` (solver.py): `(self.image % n) == (other.image % n)`. -/
def beqRE (env : Env) (a b : RingElement) : Bool :=
  (imageOf env a % env.n) == (imageOf env b % env.n)

/-- `RingElement.__add__` (solver.py): `RingElement(self.pre_image + other.pre_image)`. -/
def addRE (a b : RingElement) : RingElement := ⟨a.pre_image + b.pre_image⟩

/-- `RingElement.__mul__` with a `RingElement` operand (solver.py). -/
def mulERE (a b : RingElement) : RingElement := ⟨a.pre_image * b.pre_image⟩

/-- `RingElement.__mul__` with an `int` operand (solver.py). -/
def mulSRE (a : RingElement) (z : ℤ) : RingElement := ⟨a.pre_image * z⟩

/-- Inherited `__sub__`: `self + (other * (-1))` on `RingElement`. -/
def subRE (a b : RingElement) : RingElement := addRE a (mulSRE b (-1))

/-- The nested `oracle` closure (solver.py lines 33-40): increment `uses`,
send the value over the socket, read and parse the reply.  The reply (or the
transport fault raised by `send`/`recv`) to the i-th query is `env.resp i`;
the query value is appended to the session log. -/
def oracleCall (env : Env) (x : ℤ) (s : OState) : OState × Except OracleFault Bool :=
  (⟨s.uses + 1, s.queries ++ [x]⟩, env.resp s.uses x)

/-- `RingElement.__ge__` (solver.py lines 68-75): `oracle((self - other).image)`. -/
def geS (env : Env) (a b : RingElement) (s : OState) : OState × Except OracleFault Bool :=
  oracleCall env (imageOf env (subRE a b)) s

/-- The oracle-backed instantiation of the Euclidean-domain operations. -/
def ringOps (env : Env) : EDOps RingElement OState where
  zero := zeroRE
  beq := beqRE env
  add := addRE
  mulE := mulERE
  mulS := mulSRE
  ge := geS env

/-- State-threaded view of `RingElement.zero()`: its body mentions neither
`uses` nor the socket, so its action on the session state is the identity. -/
def zeroS (s : OState) : OState × RingElement := (s, zeroRE)

/-- State-threaded view of `RingElement.__eq__` (pure: it only reads images). -/
def eqS (env : Env) (a b : RingElement) (s : OState) : OState × Bool := (s, beqRE env a b)

/-- State-threaded view of the inherited `__ne__`. -/
def neS (env : Env) (a b : RingElement) (s : OState) : OState × Bool := (s, !(beqRE env a b))

/-- State-threaded view of `RingElement.__add__`. -/
def addS (a b : RingElement) (s : OState) : OState × RingElement := (s, addRE a b)

/-- State-threaded view of `RingElement.__mul__` (element operand). -/
def mulElemS (a b : RingElement) (s : OState) : OState × RingElement := (s, mulERE a b)

/-- State-threaded view of `RingElement.__mul__` (scalar operand). -/
def mulScalarS (a : RingElement) (z : ℤ) (s : OState) : OState × RingElement := (s, mulSRE a z)

/-- State-threaded view of the inherited `__sub__`. -/
def subS (a b : RingElement) (s : OState) : OState × RingElement := (s, subRE a b)

/-- State-threaded view of the `image` property (pure arithmetic). -/
def imageS (env : Env) (a : RingElement) (s : OState) : OState × ℤ := (s, imageOf env a)

/-- State-threaded view of the inherited `__le__`: `other >= self`, one query. -/
def leS (env : Env) (a b : RingElement) (s : OState) : OState × Except OracleFault Bool :=
  geS env b a s

/-- `SETUP_MAX_INVOCATIONS` (solver.py line 17). -/
def SETUP_MAX_INVOCATIONS : ℕ := 2 ^ 11

/-- One candidate-sampling loop of `try_attack` (solver.py lines 103-110):
`while not ((k := RingElement(random.randint(1, n))) >= zero) and uses <= B`.
Each condition evaluation draws a fresh candidate (`d` indexes `env.rand`)
and issues one oracle comparison against zero; the loop exits with the last
drawn candidate once it is accepted or once `uses` exceeds the budget.  A
transport fault is uncaught here and aborts the session. -/
def sampleLoop (env : Env) (B : ℕ) :
    ℕ → ℕ → OState → Option (Except OracleFault (ℕ × OState × RingElement))
  | 0, _, _ => none
  | fuel + 1, d, s =>
    match geS env ⟨env.rand d⟩ zeroRE s with
    | (_, Except.error f) => some (Except.error f)
    | (s', Except.ok true) => some (Except.ok (d + 1, s', ⟨env.rand d⟩))
    | (s', Except.ok false) =>
      if s'.uses ≤ B then sampleLoop env B fuel (d + 1) s'
      else some (Except.ok (d + 1, s', ⟨env.rand d⟩))

/-- Result of the sampling phase of `try_attack`. -/
inductive SampleRes
  | found (s : OState) (k l : RingElement)
  | budget (s : OState)
  | fault
  | fuelOut
deriving DecidableEq, Repr

/-- The sampling phase of `try_attack` (solver.py lines 103-114): the two
candidate loops starting from `uses = 0`, followed by
`if uses > SETUP_MAX_INVOCATIONS: return None` (the budget is the parameter
`B` here; the source fixes `B = SETUP_MAX_INVOCATIONS`). -/
def samplingPhase (env : Env) (B : ℕ) (fuel : ℕ) : SampleRes :=
  match sampleLoop env B fuel 0 ⟨0, []⟩ with
  | none => SampleRes.fuelOut
  | some (Except.error _) => SampleRes.fault
  | some (Except.ok (d1, s1, k)) =>
    match sampleLoop env B fuel d1 s1 with
    | none => SampleRes.fuelOut
    | some (Except.error _) => SampleRes.fault
    | some (Except.ok (_, s2, l)) =>
      if B < s2.uses then SampleRes.budget s2 else SampleRes.found s2 k l

/-- The gcd phase of `try_attack` (solver.py lines 118-127):
`k.gcd(l)` inside `try: ... except OSError: return None`.  The outer `none`
is fuel exhaustion of the model; `some (s, none)` is the session returning
`None` after catching the transport fault; `some (s, some (g, alpha, beta))`
is a completed gcd. -/
def gcdComputationPhase (env : Env) (dfuel fuel : ℕ) (k l : RingElement) (s : OState) :
    Option (OState × Option (RingElement × ℤ × ℤ)) :=
  match gcdFuel (ringOps env) dfuel fuel k l s with
  | none => none
  | some (s', Except.error _) => some (s', none)
  | some (s', Except.ok g) => some (s', some g)

/-- Modelled from the spec: the Python built-in `pow(x, -1, n)` (not part of
this repository) returns the inverse of `x` modulo `n` and raises
`ValueError` when `x` is not invertible; `none` models the raise. -/
def modInv (x n : ℤ) : Option ℤ :=
  if Int.gcd x n = 1 then some (Int.gcdA x n % n) else none

/-- Result of the validation step of `try_attack`: the recovered flag value
(its byte decoding via `long_to_bytes`/`decode` is out of scope per the
spec, so the recovered integer stands for the flag), the `None` return on a
non-coprime gcd, or an uncaught `ValueError` from `pow(x, -1, n)`. -/
inductive Outcome
  | flag (v : ℤ)
  | noResult
  | raised
deriving DecidableEq, Repr

/-- The validation step of `try_attack` (solver.py lines 129-137):
`if gcd.image == 1: return decode(pow(alpha * k.pre_image + beta * l.pre_image, -1, n))`
`else: return None`. -/
def validatePhase (env : Env) (k l g : RingElement) (a b : ℤ) : Outcome :=
  if imageOf env g = 1 then
    match modInv (a * k.pre_image + b * l.pre_image) env.n with
    | some v => Outcome.flag v
    | none => Outcome.raised
  else Outcome.noResult

/-- A concrete fault-free session environment whose oracle rejects every
candidate: modulus 5, exponent 1, ciphertext 2, every draw equal to 1. -/
def env0 : Env where
  n := 5
  e := 1
  encrypted_flag := 2
  resp _ _ := Except.ok false
  rand _ := 1

/-- A concrete session environment whose gcd validates: modulus 5,
exponent 1, ciphertext 1. -/
def env1 : Env where
  n := 5
  e := 1
  encrypted_flag := 1
  resp _ _ := Except.ok false
  rand _ := 1

/-- A concrete session environment whose transport is broken from the first
query on: every `send`/`recv` raises `OSError`. -/
def envFault : Env where
  n := 5
  e := 1
  encrypted_flag := 2
  resp _ _ := Except.error OracleFault.osError
  rand _ := 1

/-! ### The remainder returned by `__divmod__` and the Bezout invariant of `gcd` -/

theorem divmodFuel_remainder (ops : EDOps α σ) (fuel : ℕ) (self other : α) (s s' : σ)
    (q : ℤ) (r : α)
    (h : divmodFuel ops fuel self other s = some (s', Except.ok (q, r))) :
    r = ops.sub self (ops.mulS other q) := by
  unfold divmodFuel at h
  split at h
  any_goals simp_all
  split at h
  any_goals simp_all
  split at h
  · simp_all
  · simp only [Option.some.injEq, Prod.mk.injEq, Except.ok.injEq] at h
    obtain ⟨-, hq, hr⟩ := h
    subst hq
    exact hr.symm

theorem gcdLoop_bezout (ops : EDOps α σ) (pr : α → ℤ)
    (hadd : ∀ x y, pr (ops.add x y) = pr x + pr y)
    (hsmul : ∀ x z, pr (ops.mulS x z) = pr x * z)
    (X Y : ℤ) (dfuel : ℕ) :
    ∀ (fuel : ℕ) (a b : α) (aa ba ab bb : ℤ) (s s' : σ) (g : α) (ca cb : ℤ),
      gcdLoop ops dfuel fuel a b aa ba ab bb s = some (s', Except.ok (g, ca, cb)) →
      aa * X + ba * Y = pr a → ab * X + bb * Y = pr b →
      ca * X + cb * Y = pr g := by
  intro fuel
  induction fuel with
  | zero =>
    intro a b aa ba ab bb s s' g ca cb h ha hb
    unfold gcdLoop at h
    split at h
    · simp at h
    · simp only [Option.some.injEq, Prod.mk.injEq, Except.ok.injEq] at h
      obtain ⟨-, hg, hca, hcb⟩ := h
      subst hg; subst hca; subst hcb; exact ha
  | succ fuel ih =>
    intro a b aa ba ab bb s s' g ca cb h ha hb
    unfold gcdLoop at h
    split at h
    · split at h
      · simp at h
      · simp at h
      · rename_i s1 q r heq
        have hr : pr r = pr a + pr b * q * (-1) := by
          rw [divmodFuel_remainder ops dfuel a b s s1 q r heq, EDOps.sub, hadd, hsmul, hsmul]
        refine ih b r ab bb (aa - q * ab) (ba - q * bb) s1 s' g ca cb h hb ?_
        rw [hr]
        linear_combination ha - q * hb
    · simp only [Option.some.injEq, Prod.mk.injEq, Except.ok.injEq] at h
      obtain ⟨-, hg, hca, hcb⟩ := h
      subst hg; subst hca; subst hcb; exact ha

/-- Claim C1: for a concrete instantiation with an exact, non-noisy comparator
(the plain integers with the natural ordering), whenever `gcd(self, other)`
returns a triple `(g, alpha, beta)`, the Bezout identity
`alpha * self + beta * other = g` holds exactly under the domain arithmetic. -/
theorem gcd_int_bezout (self other : ℤ) (dfuel fuel : ℕ) (g a b : ℤ)
    (h : gcdFuel intOpsE dfuel fuel self other () = some ((), Except.ok (g, a, b))) :
    a * self + b * other = g :=
  gcdLoop_bezout intOpsE (fun z => z) (fun _ _ => rfl) (fun _ _ => rfl) self other dfuel
    fuel self other 1 0 0 1 () () g a b h (by ring) (by ring)

/-- Witness for C1: `gcd(17, 5)` returns `(1, -2, 7)` and `-2*17 + 7*5 = 1`. -/
theorem gcd_int_bezout_witness : (-2 : ℤ) * 17 + 7 * 5 = 1 :=
  gcd_int_bezout 17 5 8 8 1 (-2) 7 rfl

/-! ### Correctness of `__divmod__` on the exact plain-integer instantiation -/

theorem expSearch_succ (self other : ℤ) (exp fuel : ℕ) :
    expSearch intOpsE self other exp (fuel + 1) () =
      if self ≤ other * ((2 ^ exp : ℕ) : ℤ) then some ((), Except.ok (2 ^ exp))
      else expSearch intOpsE self other (exp + 1) fuel () := by
  have hge : ∀ t : Bool, decide (self ≤ other * ((2 ^ exp : ℕ) : ℤ)) = t →
      intOpsE.ge (intOpsE.mulS other ((2 ^ exp : ℕ) : ℤ)) self () = ((), Except.ok t) := by
    intro t ht
    show ((), Except.ok (decide (self ≤ other * ((2 ^ exp : ℕ) : ℤ)))) = _
    rw [ht]
  by_cases hc : self ≤ other * ((2 ^ exp : ℕ) : ℤ)
  · rw [if_pos hc]
    conv_lhs => rw [expSearch]
    rw [hge true (decide_eq_true hc)]
  · rw [if_neg hc]
    conv_lhs => rw [expSearch]
    rw [hge false (decide_eq_false hc)]

theorem binSearch_succ (self other : ℤ) (fuel a b : ℕ) :
    binSearch intOpsE self other (fuel + 1) a b () =
      if a + 1 < b then
        (if other * (((a + b) / 2 : ℕ) : ℤ) ≤ self then
          binSearch intOpsE self other fuel ((a + b) / 2) b ()
        else binSearch intOpsE self other fuel a ((a + b) / 2) ())
      else some ((), Except.ok (a, b)) := by
  have hge : ∀ t : Bool, decide (other * (((a + b) / 2 : ℕ) : ℤ) ≤ self) = t →
      intOpsE.ge self (intOpsE.mulS other (((a + b) / 2 : ℕ) : ℤ)) () = ((), Except.ok t) := by
    intro t ht
    show ((), Except.ok (decide (other * (((a + b) / 2 : ℕ) : ℤ) ≤ self))) = _
    rw [ht]
  by_cases hab : a + 1 < b
  · rw [if_pos hab]
    conv_lhs => rw [binSearch]
    rw [if_pos hab]
    by_cases hc : other * (((a + b) / 2 : ℕ) : ℤ) ≤ self
    · rw [if_pos hc, hge true (decide_eq_true hc)]
    · rw [if_neg hc, hge false (decide_eq_false hc)]
  · rw [if_neg hab]
    conv_lhs => rw [binSearch]
    rw [if_neg hab]

theorem expSearch_int_sound (self other : ℤ) :
    ∀ (fuel exp b : ℕ),
      expSearch intOpsE self other exp fuel () = some ((), Except.ok b) →
      self ≤ other * (b : ℤ) := by
  intro fuel
  induction fuel with
  | zero => intro exp b h; simp [expSearch] at h
  | succ fuel ih =>
    intro exp b h
    rw [expSearch_succ] at h
    by_cases hc : self ≤ other * ((2 ^ exp : ℕ) : ℤ)
    · rw [if_pos hc] at h
      simp only [Option.some.injEq, Prod.mk.injEq, Except.ok.injEq, true_and] at h
      exact h ▸ hc
    · rw [if_neg hc] at h
      exact ih (exp + 1) b h

theorem expSearch_int_total (self other : ℤ) :
    ∀ (fuel exp : ℕ), (∃ j, j < fuel ∧ self ≤ other * ((2 ^ (exp + j) : ℕ) : ℤ)) →
      ∃ b, expSearch intOpsE self other exp fuel () = some ((), Except.ok b) := by
  intro fuel
  induction fuel with
  | zero => rintro exp ⟨j, hj, -⟩; omega
  | succ fuel ih =>
    rintro exp ⟨j, hj, hle⟩
    rw [expSearch_succ]
    by_cases hc : self ≤ other * ((2 ^ exp : ℕ) : ℤ)
    · exact ⟨2 ^ exp, by rw [if_pos hc]⟩
    · rw [if_neg hc]
      have hj0 : j ≠ 0 := by
        rintro rfl
        exact hc (by simpa using hle)
      obtain ⟨j', rfl⟩ := Nat.exists_eq_succ_of_ne_zero hj0
      exact ih (exp + 1)
        ⟨j', by omega, by rw [show exp + 1 + j' = exp + (j' + 1) by omega]; exact hle⟩

theorem binSearch_int (self other : ℤ) :
    ∀ (fuel a b : ℕ), b - a ≤ fuel →
      ∃ a' b',
        binSearch intOpsE self other fuel a b () = some ((), Except.ok (a', b')) ∧
        b' ≤ a' + 1 ∧
        (self ≤ other * (b : ℤ) → self ≤ other * (b' : ℤ)) := by
  intro fuel
  induction fuel with
  | zero =>
    intro a b hf
    refine ⟨a, b, ?_, by omega, fun h => h⟩
    simp only [binSearch]
    rw [if_neg (by omega)]
  | succ fuel ih =>
    intro a b hf
    rw [binSearch_succ]
    by_cases hab : a + 1 < b
    · rw [if_pos hab]
      have hmid1 : a < (a + b) / 2 := by omega
      have hmid2 : (a + b) / 2 < b := by omega
      by_cases hc : other * (((a + b) / 2 : ℕ) : ℤ) ≤ self
      · rw [if_pos hc]
        exact ih ((a + b) / 2) b (by omega)
      · rw [if_neg hc]
        obtain ⟨a', b', heq, hble, hinv⟩ := ih a ((a + b) / 2) (by omega)
        exact ⟨a', b', heq, hble, fun _ => hinv (not_le.mp hc).le⟩
    · rw [if_neg hab]
      exact ⟨a, b, rfl, by omega, fun h => h⟩

theorem divmodFuel_eq (ops : EDOps α σ) (fuel : ℕ) (self other : α)
    (s s1 s2 s3 : σ) (b a b' : ℕ) (t : Bool)
    (hexp : expSearch ops self other 0 fuel s = some (s1, Except.ok b))
    (hbin : binSearch ops self other b 0 b s1 = some (s2, Except.ok (a, b')))
    (hge : ops.ge self (ops.mulS other (b' : ℤ)) s2 = (s3, Except.ok t)) :
    divmodFuel ops fuel self other s =
      some (s3, Except.ok (if t then (b' : ℤ) else (a : ℤ),
        ops.sub self (ops.mulS other (if t then (b' : ℤ) else (a : ℤ))))) := by
  simp only [divmodFuel, hexp, hbin, hge]

/-- Claim C2 (amended): for the exact plain-integer instantiation, for every
strictly positive divisor `other` and arbitrary `self`, `divmod(self, other)`
terminates (for sufficient fuel) and returns `(q, r)` with
`self = other * q + r` and `r` strictly smaller than `other`. -/
theorem divmod_int_pos_correct (self other : ℤ) (hpos : 0 < other) :
    ∃ (fuel : ℕ) (q r : ℤ),
      divmodFuel intOpsE fuel self other () = some ((), Except.ok (q, r)) ∧
        self = other * q + r ∧ r < other := by
  have hone : (1 : ℤ) ≤ other := hpos
  have htot : ∃ j, j < self.toNat + 1 ∧ self ≤ other * ((2 ^ (0 + j) : ℕ) : ℤ) := by
    refine ⟨self.toNat, by omega, ?_⟩
    calc self ≤ (self.toNat : ℤ) := Int.self_le_toNat self
      _ ≤ ((2 ^ self.toNat : ℕ) : ℤ) := by exact_mod_cast (Nat.lt_two_pow self.toNat).le
      _ ≤ other * ((2 ^ self.toNat : ℕ) : ℤ) := le_mul_of_one_le_left (by positivity) hone
      _ = other * ((2 ^ (0 + self.toNat) : ℕ) : ℤ) := by norm_num
  obtain ⟨b, hexp⟩ := expSearch_int_total self other (self.toNat + 1) 0 htot
  have hinvb : self ≤ other * (b : ℤ) := expSearch_int_sound self other (self.toNat + 1) 0 b hexp
  obtain ⟨a', b', hbin, hble, hbinv⟩ := binSearch_int self other b 0 b (by omega)
  have hinv' : self ≤ other * (b' : ℤ) := hbinv hinvb
  have hble' : (b' : ℤ) ≤ (a' : ℤ) + 1 := by exact_mod_cast hble
  by_cases hg : other * (b' : ℤ) ≤ self
  · have hge : intOpsE.ge self (intOpsE.mulS other (b' : ℤ)) () =
        ((), Except.ok true) := by
      simp only [intOpsE, decide_eq_true_eq]
      exact Prod.ext rfl (congrArg Except.ok (by simpa using hg))
    have hred := divmodFuel_eq intOpsE (self.toNat + 1) self other () () () () b a' b' true
      hexp hbin hge
    simp only [if_pos rfl, if_true] at hred
    refine ⟨self.toNat + 1, (b' : ℤ), _, hred, ?_, ?_⟩
    · show self = other * (b' : ℤ) + (self + other * (b' : ℤ) * (-1))
      ring
    · show self + other * (b' : ℤ) * (-1) < other
      have : self = other * (b' : ℤ) := le_antisymm hinv' hg
      linarith
  · have hge : intOpsE.ge self (intOpsE.mulS other (b' : ℤ)) () =
        ((), Except.ok false) := by
      simp only [intOpsE]
      exact Prod.ext rfl (congrArg Except.ok (by simpa using hg))
    have hred := divmodFuel_eq intOpsE (self.toNat + 1) self other () () () () b a' b' false
      hexp hbin hge
    simp only [if_neg, Bool.false_eq_true, if_false] at hred
    refine ⟨self.toNat + 1, (a' : ℤ), _, hred, ?_, ?_⟩
    · show self = other * (a' : ℤ) + (self + other * (a' : ℤ) * (-1))
      ring
    · show self + other * (a' : ℤ) * (-1) < other
      have hlt : self < other * (b' : ℤ) := not_le.mp hg
      have : other * (b' : ℤ) ≤ other * ((a' : ℤ) + 1) :=
        mul_le_mul_of_nonneg_left hble' hpos.le
      linarith

/-- Counterexample to C2 as stated: in the exact plain-integer domain, for the
non-zero divisor `other = -3` and `self = -3`, `divmod` returns `(1, 0)`, and
the remainder `0` is not strictly smaller than the divisor `-3` under the
domain's natural ordering. -/
theorem divmod_neg_divisor_counterexample :
    divmodFuel intOpsE 1 (-3) (-3) () = some ((), Except.ok (1, 0)) ∧
      ¬((0 : ℤ) < (-3 : ℤ)) :=
  ⟨rfl, by decide⟩

/-- Witness for C2 (amended) at `self = 17`, `other = 5`. -/
theorem divmod_int_pos_correct_witness :
    (0 : ℤ) < 5 ∧ ∃ (fuel : ℕ) (q r : ℤ),
      divmodFuel intOpsE fuel 17 5 () = some ((), Except.ok (q, r)) ∧
        (17 : ℤ) = 5 * q + r ∧ r < 5 :=
  ⟨by decide, divmod_int_pos_correct 17 5 (by decide)⟩

/-- Claim C9: for any instantiation whose equality test accepts
`zero() == zero()`, `gcd(x, zero())` never enters the loop body and returns
exactly `(x, 1, 0)` with the session state untouched, so no divmod runs and
no comparison (hence no oracle query) is issued by the gcd call itself. -/
theorem gcd_zero_right (ops : EDOps α σ) (x : α) (s : σ) (dfuel fuel : ℕ)
    (hz : ops.beq ops.zero ops.zero = true) :
    gcdFuel ops dfuel fuel x ops.zero s = some (s, Except.ok (x, 1, 0)) := by
  cases fuel <;> simp [gcdFuel, gcdLoop, EDOps.ne, hz]

/-- Witness for C9 on the oracle-backed instantiation: from an arbitrary
session state, `gcd(RingElement(7), zero)` returns `(7, 1, 0)` leaving the
query counter and log unchanged. -/
theorem gcd_zero_right_witness :
    gcdFuel (ringOps env0) 3 3 ⟨7⟩ zeroRE ⟨5, [9]⟩ =
      some (⟨5, [9]⟩, Except.ok (⟨7⟩, 1, 0)) :=
  gcd_zero_right (ringOps env0) ⟨7⟩ ⟨5, [9]⟩ 3 3 rfl

/-- Claim C4: a single `__ge__` comparison performs exactly one oracle query,
on the value `(self - other).image`, and increments the session query counter
`uses` by exactly one. -/
theorem ge_single_query (env : Env) (a b : RingElement) (s : OState) :
    (geS env a b s).1.uses = s.uses + 1 ∧
      (geS env a b s).1.queries = s.queries ++ [imageOf env (subRE a b)] :=
  ⟨rfl, rfl⟩

/-- Claim C7: the derived image of an oracle-backed ring element equals
`(encrypted_flag * pre_image ^ e) mod n` for every integer pre-image. -/
theorem image_spec (env : Env) (p : ℤ) :
    imageOf env ⟨p⟩ = (env.encrypted_flag * p ^ env.e) % env.n := by
  unfold imageOf
  rw [Int.mul_emod, Int.emod_emod_of_dvd _ dvd_rfl, ← Int.mul_emod]

/-- Claim C8: addition, the two multiplications and the derived subtraction
of oracle-backed ring elements act directly on `pre_image`. -/
theorem ring_ops_pre_image (a b : RingElement) (z : ℤ) :
    (addRE a b).pre_image = a.pre_image + b.pre_image ∧
      (mulERE a b).pre_image = a.pre_image * b.pre_image ∧
      (mulSRE a z).pre_image = a.pre_image * z ∧
      (subRE a b).pre_image = a.pre_image - b.pre_image := by
  refine ⟨rfl, rfl, rfl, ?_⟩
  simp only [subRE, addRE, mulSRE]
  ring

/-! ### The sampling-phase budget -/

theorem sampleLoop_uses_le (env : Env) (B : ℕ) :
    ∀ (fuel d : ℕ) (s : OState) (d' : ℕ) (s' : OState) (k : RingElement),
      sampleLoop env B fuel d s = some (Except.ok (d', s', k)) →
      s'.uses ≤ max (s.uses + 1) (B + 1) := by
  intro fuel
  induction fuel with
  | zero => intro d s d' s' k h; simp [sampleLoop] at h
  | succ fuel ih =>
    intro d s d' s' k h
    have hstep : sampleLoop env B (fuel + 1) d s =
        match env.resp s.uses (imageOf env (subRE ⟨env.rand d⟩ zeroRE)) with
        | Except.error _ => some (Except.error OracleFault.osError)
        | Except.ok true =>
          some (Except.ok (d + 1,
            ⟨s.uses + 1, s.queries ++ [imageOf env (subRE ⟨env.rand d⟩ zeroRE)]⟩,
            ⟨env.rand d⟩))
        | Except.ok false =>
          if s.uses + 1 ≤ B then
            sampleLoop env B fuel (d + 1)
              ⟨s.uses + 1, s.queries ++ [imageOf env (subRE ⟨env.rand d⟩ zeroRE)]⟩
          else
            some (Except.ok (d + 1,
              ⟨s.uses + 1, s.queries ++ [imageOf env (subRE ⟨env.rand d⟩ zeroRE)]⟩,
              ⟨env.rand d⟩)) := by
      have hge : geS env ⟨env.rand d⟩ zeroRE s =
          (⟨s.uses + 1, s.queries ++ [imageOf env (subRE ⟨env.rand d⟩ zeroRE)]⟩,
            env.resp s.uses (imageOf env (subRE ⟨env.rand d⟩ zeroRE))) := rfl
      conv_lhs => rw [sampleLoop]
      rw [hge]
      cases env.resp s.uses (imageOf env (subRE ⟨env.rand d⟩ zeroRE)) with
      | error f => cases f; rfl
      | ok t => cases t <;> rfl
    rw [hstep] at h
    cases hr : env.resp s.uses (imageOf env (subRE ⟨env.rand d⟩ zeroRE)) with
    | error f => rw [hr] at h; simp at h
    | ok t =>
      rw [hr] at h
      cases t
      · by_cases hle : s.uses + 1 ≤ B
        · rw [if_pos hle] at h
          have := ih (d + 1)
            ⟨s.uses + 1, s.queries ++ [imageOf env (subRE ⟨env.rand d⟩ zeroRE)]⟩ d' s' k h
          simp only [OState.uses] at this ⊢
          omega
        · rw [if_neg hle] at h
          simp only [Option.some.injEq, Except.ok.injEq, Prod.mk.injEq] at h
          obtain ⟨-, hs, -⟩ := h
          rw [← hs]
          simp only [OState.uses]
          omega
      · simp only [Option.some.injEq, Except.ok.injEq, Prod.mk.injEq] at h
        obtain ⟨-, hs, -⟩ := h
        rw [← hs]
        simp only [OState.uses]
        omega

/-- Claim C3 (amended): the sampling phase issues at most `B + 2` oracle
comparisons before declaring the setup-budget failure (the budget check runs
after each query, so each loop can overshoot `B` by one query). -/
theorem sampling_budget_bound (env : Env) (B fuel : ℕ) (s' : OState)
    (h : samplingPhase env B fuel = SampleRes.budget s') :
    s'.uses ≤ B + 2 := by
  unfold samplingPhase at h
  split at h
  · simp at h
  · simp at h
  · rename_i d1 s1 k heq1
    split at h
    · simp at h
    · simp at h
    · rename_i d2 s2 l heq2
      split at h
      · rename_i hgt
        simp only [SampleRes.budget.injEq] at h
        subst h
        have hs1 := sampleLoop_uses_le env B fuel 0 ⟨0, []⟩ d1 s1 k heq1
        have hs2 := sampleLoop_uses_le env B fuel d1 s1 d2 s2 l heq2
        simp only [OState.uses] at hs1
        omega
      · simp at h

/-- Counterexample to C3 as stated: with setup budget `B = 1` and an oracle
that rejects every candidate, the sampling phase declares the budget failure
only after issuing 3 comparisons, exceeding the configured budget. -/
theorem sampling_budget_counterexample :
    samplingPhase env0 1 10 = SampleRes.budget ⟨3, [2, 2, 2]⟩ ∧ ¬(3 ≤ 1) :=
  ⟨rfl, by decide⟩

/-- Witness for C3 (amended) on the same concrete session: 3 ≤ 1 + 2. -/
theorem sampling_budget_bound_witness : (⟨3, [2, 2, 2]⟩ : OState).uses ≤ 1 + 2 :=
  sampling_budget_bound env0 1 10 ⟨3, [2, 2, 2]⟩ rfl

/-- Claim C10: the pure operations on oracle-backed ring elements (zero,
equality, inequality, addition, both multiplications, subtraction, image)
leave the session state unchanged; only the comparisons `__ge__` and the
derived `__le__` consume oracle budget, each incrementing `uses` by one. -/
theorem pure_ops_frame (env : Env) (a b : RingElement) (z : ℤ) (s : OState) :
    (zeroS s).1 = s ∧ (eqS env a b s).1 = s ∧ (neS env a b s).1 = s ∧
      (addS a b s).1 = s ∧ (mulElemS a b s).1 = s ∧ (mulScalarS a z s).1 = s ∧
      (subS a b s).1 = s ∧ (imageS env a s).1 = s ∧
      (geS env a b s).1.uses = s.uses + 1 ∧ (leS env a b s).1.uses = s.uses + 1 :=
  ⟨rfl, rfl, rfl, rfl, rfl, rfl, rfl, rfl, rfl, rfl⟩

/-! ### Validation of the gcd result and transport faults -/

theorem image_one_coprime (F g n : ℤ) (e : ℕ) (he : 1 ≤ e)
    (h : (F * (g ^ e % n)) % n = 1) : Int.gcd g n = 1 := by
  rw [Int.mul_emod, Int.emod_emod_of_dvd _ dvd_rfl, ← Int.mul_emod] at h
  have key : F * g ^ e - n * (F * g ^ e / n) = 1 := by
    rw [← Int.emod_def, h]
  have hd1 : (Int.gcd g n : ℤ) ∣ g := Int.gcd_dvd_left
  have hd2 : (Int.gcd g n : ℤ) ∣ n := Int.gcd_dvd_right
  have hdg : (Int.gcd g n : ℤ) ∣ g ^ e := dvd_pow hd1 (by omega)
  have hone : (Int.gcd g n : ℤ) ∣ 1 := by
    rw [← key]
    exact dvd_sub (hdg.mul_left F) (hd2.mul_right _)
  have : Int.gcd g n ∣ 1 := by exact_mod_cast hone
  exact Nat.dvd_one.mp this

theorem modInv_mul (x n : ℤ) (hg : Int.gcd x n = 1) (hn : 1 < n) :
    ∃ v, modInv x n = some v ∧ (x * v) % n = 1 := by
  refine ⟨Int.gcdA x n % n, by rw [modInv, if_pos hg], ?_⟩
  have hb := Int.gcd_eq_gcd_ab x n
  rw [hg] at hb
  have hx : x * (Int.gcdA x n % n) % n = x * Int.gcdA x n % n := by
    rw [Int.mul_emod, Int.emod_emod_of_dvd _ dvd_rfl, ← Int.mul_emod]
  rw [hx]
  have hrw : x * Int.gcdA x n = 1 + n * (-(Int.gcdB x n)) := by
    push_cast at hb
    linarith
  rw [hrw, Int.add_mul_emod_self_left, Int.emod_eq_of_lt (by norm_num) hn]

/-- Claim C5: once the gcd phase completes with `(g, alpha, beta)`, the
orchestrator reconstructs and returns the secret (the modular inverse of
`alpha * k.pre_image + beta * l.pre_image`) exactly when the gcd element's
image equals 1 modulo the public modulus, and returns None whenever the
image differs from 1 (the non-coprime-projections case). -/
theorem validate_flag_iff_image_one (env : Env) (dfuel fuel : ℕ)
    (k l : RingElement) (s s' : OState) (g : RingElement) (a b : ℤ)
    (hgcd : gcdFuel (ringOps env) dfuel fuel k l s = some (s', Except.ok (g, a, b)))
    (he : 1 ≤ env.e) (hn : 1 < env.n) :
    (imageOf env g = 1 →
        ∃ v, validatePhase env k l g a b = Outcome.flag v ∧
          ((a * k.pre_image + b * l.pre_image) * v) % env.n = 1) ∧
      (imageOf env g ≠ 1 → validatePhase env k l g a b = Outcome.noResult) := by
  have hbez : a * k.pre_image + b * l.pre_image = g.pre_image :=
    gcdLoop_bezout (ringOps env) (fun z => z.pre_image) (fun _ _ => rfl) (fun _ _ => rfl)
      k.pre_image l.pre_image dfuel fuel k l 1 0 0 1 s s' g a b hgcd (by ring) (by ring)
  constructor
  · intro h1
    have hco : Int.gcd (a * k.pre_image + b * l.pre_image) env.n = 1 := by
      rw [hbez]
      exact image_one_coprime env.encrypted_flag g.pre_image env.n env.e he h1
    obtain ⟨v, hv, hmul⟩ := modInv_mul _ env.n hco hn
    refine ⟨v, ?_, hmul⟩
    rw [validatePhase, if_pos h1, hv]
  · intro h1
    rw [validatePhase, if_neg h1]

/-- Witness for C5 on a concrete session: `gcd(RingElement(1), zero)` returns
`(RingElement(1), 1, 0)`, its image is `1`, and validation returns the flag
value `1`, the inverse of `1*1 + 0*0` modulo 5. -/
theorem validate_flag_iff_image_one_witness :
    (imageOf env1 ⟨1⟩ = 1 →
        ∃ v, validatePhase env1 ⟨1⟩ ⟨0⟩ ⟨1⟩ 1 0 = Outcome.flag v ∧
          ((1 * (1 : ℤ) + 0 * (0 : ℤ)) * v) % env1.n = 1) ∧
      (imageOf env1 ⟨1⟩ ≠ 1 → validatePhase env1 ⟨1⟩ ⟨0⟩ ⟨1⟩ 1 0 = Outcome.noResult) :=
  validate_flag_iff_image_one env1 1 1 ⟨1⟩ ⟨0⟩ ⟨0, []⟩ ⟨0, []⟩ ⟨1⟩ 1 0 rfl
    (by decide) (by decide)

/-- Claim C6: a transport fault surfacing from the comparison primitive
propagates unhandled through divmod and gcd (with an always-faulting
transport, the gcd phase surfaces the fault as soon as the loop is entered),
and the orchestrator catches exactly this fault and ends the session with
None rather than crashing. -/
theorem transport_fault_fails_session :
    (∀ (env : Env) (dfuel fuel : ℕ) (k l : RingElement) (s s' : OState) (f : OracleFault),
        gcdFuel (ringOps env) dfuel fuel k l s = some (s', Except.error f) →
        gcdComputationPhase env dfuel fuel k l s = some (s', none)) ∧
      (∀ env : Env, (∀ i x, env.resp i x = Except.error OracleFault.osError) →
        ∀ (k l : RingElement) (s : OState), EDOps.ne (ringOps env) l zeroRE = true →
          ∀ dfuel fuel : ℕ, 0 < dfuel → 0 < fuel →
            ∃ (s' : OState) (f : OracleFault),
              gcdFuel (ringOps env) dfuel fuel k l s = some (s', Except.error f)) := by
  constructor
  · intro env dfuel fuel k l s s' f h
    unfold gcdComputationPhase
    rw [h]
  · intro env hresp k l s hne dfuel fuel hd hf
    cases dfuel with
    | zero => omega
    | succ d =>
      cases fuel with
      | zero => omega
      | succ f =>
        refine ⟨⟨s.uses + 1,
          s.queries ++ [imageOf env (subRE (mulSRE l ((2 ^ 0 : ℕ) : ℤ)) k)]⟩,
          OracleFault.osError, ?_⟩
        have hge : (ringOps env).ge ((ringOps env).mulS l ((2 ^ 0 : ℕ) : ℤ)) k s =
            (⟨s.uses + 1,
              s.queries ++ [imageOf env (subRE (mulSRE l ((2 ^ 0 : ℕ) : ℤ)) k)]⟩,
              Except.error OracleFault.osError) := by
          show (_, env.resp s.uses (imageOf env (subRE (mulSRE l ((2 ^ 0 : ℕ) : ℤ)) k))) = _
          rw [hresp]
          rfl
        have hexp : expSearch (ringOps env) k l 0 (d + 1) s =
            some (⟨s.uses + 1,
              s.queries ++ [imageOf env (subRE (mulSRE l ((2 ^ 0 : ℕ) : ℤ)) k)]⟩,
              Except.error OracleFault.osError) := by
          conv_lhs => rw [expSearch]
          rw [hge]
        have hdm : divmodFuel (ringOps env) (d + 1) k l s =
            some (⟨s.uses + 1,
              s.queries ++ [imageOf env (subRE (mulSRE l ((2 ^ 0 : ℕ) : ℤ)) k)]⟩,
              Except.error OracleFault.osError) := by
          simp only [divmodFuel, hexp]
        have hne' : EDOps.ne (ringOps env) l (ringOps env).zero = true := hne
        show gcdLoop (ringOps env) (d + 1) (f + 1) k l 1 0 0 1 s = _
        conv_lhs => rw [gcdLoop]
        rw [if_pos hne', hdm]

/-- Witness for C6 on a concrete broken-transport session: the gcd phase
surfaces the fault after the first query, and the orchestrator returns None
from the same state. -/
theorem transport_fault_fails_session_witness :
    gcdComputationPhase envFault 1 1 ⟨1⟩ ⟨1⟩ ⟨0, []⟩ = some (⟨1, [0]⟩, none) ∧
      ∃ (s' : OState) (f : OracleFault),
        gcdFuel (ringOps envFault) 1 1 ⟨1⟩ ⟨1⟩ ⟨0, []⟩ = some (s', Except.error f) :=
  ⟨transport_fault_fails_session.1 envFault 1 1 ⟨1⟩ ⟨1⟩ ⟨0, []⟩ ⟨1, [0]⟩
      OracleFault.osError rfl,
    transport_fault_fails_session.2 envFault (fun _ _ => rfl) ⟨1⟩ ⟨1⟩ ⟨0, []⟩ rfl 1 1
      (by decide) (by decide)⟩

end RSAOracle
